import Mathlib

/-!
Verification of the Arch-APL token-minter repository against its
specification.

The repository's own code (src/src/main.rs, src/src/test.rs) is a client
script over an external `apl_token` program: it builds InitializeMint /
InitializeAccount / MintTo / Transfer / Burn instructions, submits them,
and inspects the first processed transaction's status.  The fungible token
ledger engine that executes those instructions is not part of the
repository; the specification (spec.md §3, §4) defines its data model and
state machine.  Definitions below marked `Modelled from the spec:` embed
that engine from the specification's words; the remaining definitions
embed the script's own decision logic from src/src/main.rs.
-/

namespace TokenEngine

/-- Opaque fixed-width identifier used as a store key (spec §4.1: "Keys are
opaque fixed-width identifiers"). -/
abbrev Key := Nat

/-- Opaque identity value (spec §6: "the engine receives only opaque
Identity values"). -/
abbrev Identity := Nat

/-- Largest value representable in an unsigned 64-bit integer. -/
def U64MAX : Nat := 2 ^ 64 - 1

/-- Checked unsigned 64-bit addition: `none` on overflow (spec §4.2: "All
balance/supply changes use checked addition/subtraction"). -/
def checked_add (a b : Nat) : Option Nat :=
  if a + b ≤ U64MAX then some (a + b) else none

/-- Checked unsigned 64-bit subtraction: `none` on underflow. -/
def checked_sub (a b : Nat) : Option Nat :=
  if b ≤ a then some (a - b) else none

/-- Modelled from the spec: the Mint record of the external token program
(spec §3, "Mint"): optional mint authority, unsigned 64-bit supply,
decimals, optional freeze authority, initialization flag. -/
structure Mint where
  mint_authority : Option Identity
  supply : Nat
  decimals : Nat
  freeze_authority : Option Identity
  is_initialized : Bool
deriving DecidableEq, Repr

/-- Modelled from the spec: the TokenAccount record of the external token
program (spec §3, "TokenAccount"): mint reference, owner identity,
unsigned 64-bit balance, initialization flag, frozen flag. -/
structure TokenAccount where
  mint : Key
  owner : Identity
  amount : Nat
  is_initialized : Bool
  is_frozen : Bool
deriving DecidableEq, Repr

/-- Modelled from the spec: the Account Store (spec §4.1), key-addressed
storage of Mint and TokenAccount records, as association lists. -/
structure Store where
  mints : List (Key × Mint)
  accounts : List (Key × TokenAccount)
deriving DecidableEq, Repr

/-- Store lookup: `get(key) -> Option<Record>` (spec §4.1), returning the
first entry with the given key. -/
def lookupK {α : Type} : List (Key × α) → Key → Option α
  | [], _ => none
  | (k, v) :: t, k0 => if k = k0 then some v else lookupK t k0

/-- Store write: `put(key, Record)` (spec §4.1); replaces the first entry
with the given key, or appends when the key is absent. -/
def putK {α : Type} : List (Key × α) → Key → α → List (Key × α)
  | [], k0, v0 => [(k0, v0)]
  | (k, v) :: t, k0, v0 =>
      if k = k0 then (k0, v0) :: t else (k, v) :: putK t k0 v0

/-- Record update of a TokenAccount's balance. -/
def setAmount (a : TokenAccount) (n : Nat) : TokenAccount :=
  { a with amount := n }

/-- Record update of a Mint's supply. -/
def setSupply (m : Mint) (n : Nat) : Mint :=
  { m with supply := n }

/-- Modelled from the spec: the error kinds of the engine (spec §7). -/
inductive TokenError where
  | AlreadyInitialized
  | NotInitialized
  | MintNotFound
  | MintMismatch
  | AuthorityMismatch
  | AccountFrozen
  | InsufficientFunds
  | ArithmeticError
deriving DecidableEq, Repr

/-- Modelled from the spec: the five operations of the Instruction
Processor (spec §4.3). -/
inductive Op where
  | initializeMint (mint : Key) (authority : Identity)
      (freeze : Option Identity) (decimals : Nat)
  | initializeAccount (acct : Key) (mint : Key) (owner : Identity)
  | mintTo (mint : Key) (acct : Key) (caller : Identity) (amount : Nat)
  | transfer (src : Key) (dst : Key) (caller : Identity) (amount : Nat)
  | burn (acct : Key) (mint : Key) (caller : Identity) (amount : Nat)
deriving DecidableEq, Repr

/-- Modelled from the spec: InitializeMint (spec §4.3 table row 1).  An
absent key is an uninitialized slot (slot creation itself is the external
system program's concern); an initialized Mint at the key fails with
`AlreadyInitialized`.  Sets authority, decimals, freeze authority,
supply = 0, and marks the mint initialized. -/
def initializeMintOp (s : Store) (mk : Key) (auth : Identity)
    (freeze : Option Identity) (dec : Nat) : Except TokenError Store :=
  match lookupK s.mints mk with
  | some _ => .error .AlreadyInitialized
  | none =>
      .ok { s with mints := putK s.mints mk ⟨some auth, 0, dec, freeze, true⟩ }

/-- Modelled from the spec: InitializeAccount (spec §4.3 table row 2).
Requires the account slot uninitialized and the referenced Mint
initialized; sets mint and owner, amount = 0, marks initialized. -/
def initializeAccountOp (s : Store) (ak : Key) (mk : Key)
    (owner : Identity) : Except TokenError Store :=
  match lookupK s.accounts ak with
  | some _ => .error .AlreadyInitialized
  | none =>
      match lookupK s.mints mk with
      | none => .error .MintNotFound
      | some m =>
          if m.is_initialized then
            .ok { s with accounts := putK s.accounts ak ⟨mk, owner, 0, true, false⟩ }
          else .error .MintNotFound

/-- Modelled from the spec: MintTo (spec §4.3 table row 3).  Requires the
mint initialized, caller equal to the mint authority, the destination
account initialized, of the same mint and not frozen; then
`supply += amount` and `account.amount += amount`, both checked. -/
def mintToOp (s : Store) (mk : Key) (ak : Key) (caller : Identity)
    (amt : Nat) : Except TokenError Store :=
  match lookupK s.mints mk with
  | none => .error .NotInitialized
  | some m =>
      if m.is_initialized then
        if m.mint_authority = some caller then
          match lookupK s.accounts ak with
          | none => .error .NotInitialized
          | some a =>
              if a.is_initialized then
                if a.mint = mk then
                  if a.is_frozen then .error .AccountFrozen
                  else
                    match checked_add m.supply amt, checked_add a.amount amt with
                    | some supply1, some amount1 =>
                        .ok ⟨putK s.mints mk (setSupply m supply1),
                             putK s.accounts ak (setAmount a amount1)⟩
                    | _, _ => .error .ArithmeticError
                else .error .MintMismatch
              else .error .NotInitialized
        else .error .AuthorityMismatch
      else .error .NotInitialized

/-- Modelled from the spec: Transfer (spec §4.3 table row 4).  Requires
the source initialized, not frozen, caller equal to its owner; the
destination initialized, of the same mint, not frozen; and
`source.amount >= amount`.  Performs the checked subtraction on the
source, then re-reads the destination from the staged store and performs
the checked addition, so a self-transfer subtracts and adds on the same
record rather than skipping either step (spec §4.3 edge policy). -/
def transferOp (s : Store) (srcK : Key) (dstK : Key) (caller : Identity)
    (amt : Nat) : Except TokenError Store :=
  match lookupK s.accounts srcK with
  | none => .error .NotInitialized
  | some src =>
      if src.is_initialized then
        if src.is_frozen then .error .AccountFrozen
        else if src.owner = caller then
          match lookupK s.accounts dstK with
          | none => .error .NotInitialized
          | some dst =>
              if dst.is_initialized then
                if dst.mint = src.mint then
                  if dst.is_frozen then .error .AccountFrozen
                  else
                    match checked_sub src.amount amt with
                    | none => .error .InsufficientFunds
                    | some srcAmt1 =>
                        match lookupK (putK s.accounts srcK (setAmount src srcAmt1)) dstK with
                        | none => .error .NotInitialized
                        | some dstRec =>
                            match checked_add dstRec.amount amt with
                            | none => .error .ArithmeticError
                            | some dstAmt1 =>
                                .ok ⟨s.mints,
                                  putK (putK s.accounts srcK (setAmount src srcAmt1)) dstK
                                    (setAmount dstRec dstAmt1)⟩
                else .error .MintMismatch
              else .error .NotInitialized
        else .error .AuthorityMismatch
      else .error .NotInitialized

/-- Modelled from the spec: Burn (spec §4.3 table row 5).  Requires the
source initialized, not frozen, caller equal to its owner,
`source.amount >= amount`, and the source's mint equal to the given
mint; then `source.amount -= amount` and `mint.supply -= amount`, both
checked. -/
def burnOp (s : Store) (ak : Key) (mk : Key) (caller : Identity)
    (amt : Nat) : Except TokenError Store :=
  match lookupK s.accounts ak with
  | none => .error .NotInitialized
  | some a =>
      if a.is_initialized then
        if a.is_frozen then .error .AccountFrozen
        else if a.owner = caller then
          match checked_sub a.amount amt with
          | none => .error .InsufficientFunds
          | some aAmt1 =>
              if a.mint = mk then
                match lookupK s.mints mk with
                | none => .error .NotInitialized
                | some m =>
                    if m.is_initialized then
                      match checked_sub m.supply amt with
                      | none => .error .ArithmeticError
                      | some supply1 =>
                          .ok ⟨putK s.mints mk (setSupply m supply1),
                               putK s.accounts ak (setAmount a aAmt1)⟩
                    else .error .NotInitialized
              else .error .MintMismatch
        else .error .AuthorityMismatch
      else .error .NotInitialized

/-- Modelled from the spec: the Instruction Processor's dispatch over the
five operations (spec §4.3); each operation is atomic, validating before
mutating, and returns either the new store or a typed error. -/
def applyOp (s : Store) : Op → Except TokenError Store
  | .initializeMint mk auth freeze dec => initializeMintOp s mk auth freeze dec
  | .initializeAccount ak mk owner => initializeAccountOp s ak mk owner
  | .mintTo mk ak caller amt => mintToOp s mk ak caller amt
  | .transfer srcK dstK caller amt => transferOp s srcK dstK caller amt
  | .burn ak mk caller amt => burnOp s ak mk caller amt

/-- Modelled from the spec: executing one operation against the store; a
failed operation leaves the store unchanged (spec §2 control flow: "on
failure, returns a typed error and performs no mutation"). -/
def execOp (s : Store) (op : Op) : Store :=
  match applyOp s op with
  | .ok s1 => s1
  | .error _ => s

/-- Modelled from the spec: running a sequence of operations, stopping at
the first failure. -/
def runOps (s : Store) : List Op → Except TokenError Store
  | [] => .ok s
  | op :: t =>
      match applyOp s op with
      | .ok s1 => runOps s1 t
      | .error e => .error e

/-- The empty Account Store. -/
def emptyStore : Store := ⟨[], []⟩

/-- Contribution of one TokenAccount record to the balance total of the
mint with key `mk`: its amount when it is initialized and references that
mint, else 0. -/
def contrib (mk : Key) (a : TokenAccount) : Nat :=
  if a.is_initialized = true ∧ a.mint = mk then a.amount else 0

/-- Sum of `amount` over all stored TokenAccounts referencing mint `mk`. -/
def sumAmounts : List (Key × TokenAccount) → Key → Nat
  | [], _ => 0
  | (_, a) :: t, mk => contrib mk a + sumAmounts t mk

/-- The supply invariant (spec §3): every initialized Mint's `supply`
equals the sum of `amount` over initialized TokenAccounts referencing it. -/
def SupplyInv (s : Store) : Prop :=
  ∀ mk m, lookupK s.mints mk = some m → m.is_initialized = true →
    m.supply = sumAmounts s.accounts mk

/-- Balance of the token account stored at key `k` (0 when absent). -/
def balOf (s : Store) (k : Key) : Nat :=
  ((lookupK s.accounts k).map TokenAccount.amount).getD 0

/-- Supply of the mint stored at key `k` (0 when absent). -/
def supplyOf (s : Store) (k : Key) : Nat :=
  ((lookupK s.mints k).map Mint.supply).getD 0

/-- Well-formedness of a reachable store: every stored TokenAccount is
initialized and references a mint present in the store, and the supply
invariant holds. -/
def WF (s : Store) : Prop :=
  (∀ p ∈ s.accounts, p.2.is_initialized = true ∧
    (lookupK s.mints p.2.mint).isSome = true) ∧
  SupplyInv s

/-- All stored balances and supplies fit in an unsigned 64-bit integer. -/
def BoundedStore (s : Store) : Prop :=
  (∀ p ∈ s.accounts, p.2.amount ≤ U64MAX) ∧
  (∀ q ∈ s.mints, q.2.supply ≤ U64MAX)

/-- The lifecycle scenario of spec §8 / `run_token_lifecycle`
(src/src/main.rs lines 27-77): mint key 0 with authority 10, accounts 1
and 2 owned by 11 and 12, mint 1_000_000_000 to account 1, transfer
500_000_000 from account 1 to account 2, burn 100_000_000 from
account 2. -/
def lifecycleOps : List Op :=
  [ .initializeMint 0 10 none 9,
    .initializeAccount 1 0 11,
    .initializeAccount 2 0 12,
    .mintTo 0 1 10 1000000000,
    .transfer 1 2 11 500000000,
    .burn 2 0 12 100000000 ]

/-- A small concrete store used to instantiate hypotheses of the proved
theorems: one initialized mint at key 0 (authority 10, supply 1000) and
two initialized accounts of that mint at keys 1 and 2 (owners 11 and 12,
balances 600 and 400). -/
def demoStore : Store :=
  ⟨[(0, ⟨some 10, 1000, 9, none, true⟩)],
   [(1, ⟨0, 11, 600, true, false⟩), (2, ⟨0, 12, 400, true, false⟩)]⟩

/-- A concrete store at the representable limit: one initialized mint at
key 0 with supply U64MAX and an account at key 1 of that mint holding
U64MAX, used to exhibit overflow failures. -/
def fullStore : Store :=
  ⟨[(0, ⟨some 10, U64MAX, 9, none, true⟩)],
   [(1, ⟨0, 11, U64MAX, true, false⟩), (2, ⟨0, 12, 5, true, false⟩)]⟩

/-- A concrete store whose mint supply (3) is smaller than an account
balance (10), used to exhibit the supply-underflow failure of Burn; such
a store is not reachable from the empty store, which is exactly why the
checked subtraction on the supply is needed. -/
def lowSupplyStore : Store :=
  ⟨[(0, ⟨some 10, 3, 9, none, true⟩)],
   [(1, ⟨0, 11, 10, true, false⟩)]⟩

end TokenEngine

namespace TokenScript

/-- Transaction status as the script observes it: the code of
src/src/main.rs only ever compares a status with `Status::Processed`, so
the model keeps `processed` and a representative non-processed value. -/
inductive Status where
  | processed
  | notProcessed
deriving DecidableEq, Repr

/-- Decision logic shared by the five submission wrappers of
src/src/main.rs: each sends one transaction, reads
`processed_txs[0].status`, and returns `Ok(())` exactly when it equals
`Status::Processed`, else a fixed error message; nothing else about the
submission outcome is inspected. -/
def submissionOutcome (msg : String) (st : Status) : Except String Unit :=
  if st = Status.processed then .ok () else .error msg

/-- Outcome logic of `create_token_mint` (src/src/main.rs lines 116-119)
as a function of the first processed transaction's status. -/
def create_token_mint (st : Status) : Except String Unit :=
  submissionOutcome "Failed to create token mint" st

/-- Outcome logic of `create_token_account` (src/src/main.rs lines
167-170). -/
def create_token_account (st : Status) : Except String Unit :=
  submissionOutcome "Failed to create token account" st

/-- Outcome logic of `mint_tokens` (src/src/main.rs lines 206-209). -/
def mint_tokens (st : Status) : Except String Unit :=
  submissionOutcome "Failed to mint tokens" st

/-- Outcome logic of `transfer_tokens` (src/src/main.rs lines 245-248). -/
def transfer_tokens (st : Status) : Except String Unit :=
  submissionOutcome "Failed to transfer tokens" st

/-- Outcome logic of `burn_tokens` (src/src/main.rs lines 282-285). -/
def burn_tokens (st : Status) : Except String Unit :=
  submissionOutcome "Failed to burn tokens" st

/-- The `initialize_mint` instruction parameters fixed by
`create_token_mint` (src/src/main.rs lines 97-103). -/
structure InitializeMintParams where
  mint : Nat
  mint_authority : Nat
  freeze_authority : Option Nat
  decimals : Nat
deriving DecidableEq, Repr

/-- The `initialize_mint` instruction built by `create_token_mint`
(src/src/main.rs lines 97-103), as a function of the authority and mint
public keys that the function generates internally (lines 81 and 85);
the caller passes only the RPC client and chooses none of these fields. -/
def create_token_mint_ix (authority_pubkey token_mint_pubkey : Nat) :
    InitializeMintParams :=
  { mint := token_mint_pubkey
    mint_authority := authority_pubkey
    freeze_authority := none
    decimals := 9 }

end TokenScript

namespace TokenEngine

theorem lookupK_putK_self {α : Type} (l : List (Key × α)) (k : Key) (v : α) :
    lookupK (putK l k v) k = some v := by
  induction l with
  | nil => simp [putK, lookupK]
  | cons q t ih =>
      obtain ⟨k1, v1⟩ := q
      by_cases hk : k1 = k
      · subst hk; simp [putK, lookupK]
      · simp [putK, lookupK, hk, ih]

theorem lookupK_putK_ne {α : Type} (l : List (Key × α)) {k k0 : Key} (v : α)
    (h : k0 ≠ k) : lookupK (putK l k v) k0 = lookupK l k0 := by
  induction l with
  | nil => simp [putK, lookupK, Ne.symm h]
  | cons q t ih =>
      obtain ⟨k1, v1⟩ := q
      by_cases hk : k1 = k
      · subst hk; simp [putK, lookupK, Ne.symm h]
      · simp [putK, lookupK, hk, ih]

theorem lookupK_putK_isSome {α : Type} (l : List (Key × α)) (k k0 : Key) (v : α)
    (h : (lookupK l k0).isSome = true) :
    (lookupK (putK l k v) k0).isSome = true := by
  by_cases hk : k0 = k
  · subst hk; rw [lookupK_putK_self]; rfl
  · rw [lookupK_putK_ne l v hk]; exact h

theorem mem_putK {α : Type} {l : List (Key × α)} {k : Key} {v : α} {p : Key × α}
    (h : p ∈ putK l k v) : p = (k, v) ∨ p ∈ l := by
  induction l with
  | nil =>
      simp [putK] at h
      left; exact h
  | cons q t ih =>
      obtain ⟨k1, v1⟩ := q
      by_cases hk : k1 = k
      · subst hk
        simp [putK] at h
        rcases h with h | h
        · left; simp [h]
        · right; simp [h]
      · simp [putK, hk] at h
        rcases h with h | h
        · right; simp [h]
        · rcases ih h with h1 | h1
          · left; exact h1
          · right; simp [h1]

theorem putK_lookup_self {α : Type} {l : List (Key × α)} {k : Key} {v : α}
    (h : lookupK l k = some v) : putK l k v = l := by
  induction l with
  | nil => simp [lookupK] at h
  | cons q t ih =>
      obtain ⟨k1, v1⟩ := q
      by_cases hk : k1 = k
      · simp [lookupK, hk] at h
        simp [putK, hk, h]
      · simp [lookupK, hk] at h
        simp [putK, hk, ih h]

theorem sumAmounts_putK {l : List (Key × TokenAccount)} {k : Key}
    {a : TokenAccount} (v : TokenAccount) (h : lookupK l k = some a) (mk : Key) :
    sumAmounts (putK l k v) mk + contrib mk a = sumAmounts l mk + contrib mk v := by
  induction l with
  | nil => simp [lookupK] at h
  | cons q t ih =>
      obtain ⟨k1, a1⟩ := q
      by_cases hk : k1 = k
      · simp [lookupK, hk] at h
        subst h
        simp [putK, hk, sumAmounts]
        omega
      · simp [lookupK, hk] at h
        have h1 := ih h
        simp [putK, hk, sumAmounts]
        omega

theorem sumAmounts_zero {l : List (Key × TokenAccount)} {mk : Key}
    (h : ∀ p ∈ l, contrib mk p.2 = 0) : sumAmounts l mk = 0 := by
  induction l with
  | nil => rfl
  | cons q t ih =>
      obtain ⟨k1, a1⟩ := q
      have h1 : contrib mk a1 = 0 := h (k1, a1) (by simp)
      have h2 : ∀ p ∈ t, contrib mk p.2 = 0 := fun p hp => h p (by simp [hp])
      simp [sumAmounts, h1, ih h2]

theorem putK_eq_append {α : Type} {l : List (Key × α)} {k : Key} (v : α)
    (h : lookupK l k = none) : putK l k v = l ++ [(k, v)] := by
  induction l with
  | nil => rfl
  | cons q t ih =>
      obtain ⟨k1, v1⟩ := q
      by_cases hk : k1 = k
      · simp [lookupK, hk] at h
      · simp [lookupK, hk] at h
        simp [putK, hk, ih h]

theorem sumAmounts_append (l1 l2 : List (Key × TokenAccount)) (mk : Key) :
    sumAmounts (l1 ++ l2) mk = sumAmounts l1 mk + sumAmounts l2 mk := by
  induction l1 with
  | nil => simp [sumAmounts]
  | cons q t ih =>
      obtain ⟨k1, a1⟩ := q
      simp [sumAmounts, ih]
      omega

theorem sumAmounts_putK_new {l : List (Key × TokenAccount)} {k : Key}
    (v : TokenAccount) (h : lookupK l k = none) (mk : Key) :
    sumAmounts (putK l k v) mk = sumAmounts l mk + contrib mk v := by
  rw [putK_eq_append v h, sumAmounts_append]
  simp [sumAmounts]

/-- C2: for every operation and store state, a failed operation (any
error kind) leaves the store exactly equal to the store before it:
failure returns a typed error and performs no mutation. -/
theorem failed_op_leaves_store_unchanged (s : Store) (op : Op) (e : TokenError)
    (h : applyOp s op = .error e) : execOp s op = s := by
  unfold execOp
  rw [h]

theorem failed_op_leaves_store_unchanged_witness :
    execOp emptyStore (.mintTo 0 1 10 5) = emptyStore :=
  failed_op_leaves_store_unchanged emptyStore (.mintTo 0 1 10 5)
    .NotInitialized rfl

/-- C3: from the empty store, the lifecycle sequence (InitializeMint with
decimals 9, InitializeAccount for accounts 1 and 2, MintTo of
1_000_000_000 to account 1 by the mint authority, Transfer of 500_000_000
from account 1 to account 2 by account 1's owner, Burn of 100_000_000
from account 2 by account 2's owner) succeeds at every step and ends with
balance(acct1) = 500_000_000, balance(acct2) = 400_000_000 and
supply = 900_000_000. -/
theorem lifecycle_scenario :
    (runOps emptyStore lifecycleOps).map
      (fun s => (balOf s 1, balOf s 2, supplyOf s 0)) =
    .ok (500000000, 400000000, 900000000) := by
  rfl

theorem wf_initializeMintOp {s s1 : Store} {mk : Key} {auth : Identity}
    {freeze : Option Identity} {dec : Nat} (hwf : WF s)
    (h : initializeMintOp s mk auth freeze dec = .ok s1) : WF s1 := by
  unfold initializeMintOp at h
  split at h
  · simp at h
  · rename_i hm
    simp only [Except.ok.injEq] at h
    subst h
    obtain ⟨hacc, hinv⟩ := hwf
    constructor
    · intro p hp
      exact ⟨(hacc p hp).1, lookupK_putK_isSome _ _ _ _ (hacc p hp).2⟩
    · intro mk1 m1 hl hinit
      simp only at hl
      by_cases hk : mk1 = mk
      · subst hk
        rw [lookupK_putK_self] at hl
        cases hl
        have hz : sumAmounts s.accounts mk1 = 0 := by
          apply sumAmounts_zero
          intro p hp
          have hsome := (hacc p hp).2
          by_cases hpm : p.2.mint = mk1
          · rw [hpm, hm] at hsome
            simp at hsome
          · simp [contrib, hpm]
        simpa using hz.symm
      · rw [lookupK_putK_ne _ _ hk] at hl
        exact hinv mk1 m1 hl hinit

theorem wf_initializeAccountOp {s s1 : Store} {ak mk : Key} {owner : Identity}
    (hwf : WF s) (h : initializeAccountOp s ak mk owner = .ok s1) : WF s1 := by
  unfold initializeAccountOp at h
  split at h
  · simp at h
  · rename_i hak
    split at h
    · simp at h
    · rename_i m hm
      split at h
      · rename_i hminit
        simp only [Except.ok.injEq] at h
        subst h
        obtain ⟨hacc, hinv⟩ := hwf
        constructor
        · intro p hp
          simp only at hp
          rcases mem_putK hp with h1 | h1
          · subst h1
            exact ⟨rfl, by simp [hm]⟩
          · exact hacc p h1
        · intro mk1 m1 hl hinit
          simp only at hl
          have hs := hinv mk1 m1 hl hinit
          simp only
          rw [sumAmounts_putK_new _ hak mk1, hs]
          simp [contrib]
      · simp at h

theorem wf_mintToOp {s s1 : Store} {mk ak : Key} {caller : Identity} {amt : Nat}
    (hwf : WF s) (h : mintToOp s mk ak caller amt = .ok s1) : WF s1 := by
  unfold mintToOp at h
  split at h
  next => simp at h
  next m hm =>
    split at h
    next hminit =>
      split at h
      next hauth =>
        split at h
        next => simp at h
        next a ha =>
          split at h
          next hainit =>
            split at h
            next hamint =>
              split at h
              next => simp at h
              next hfroz =>
                split at h
                next supply1 amount1 hs1 ha1 =>
                  simp only [Except.ok.injEq] at h
                  subst h
                  unfold checked_add at hs1 ha1
                  split at hs1
                  next hbs =>
                    injection hs1 with hs1
                    split at ha1
                    next hba =>
                      injection ha1 with ha1
                      subst hs1
                      subst ha1
                      obtain ⟨hacc, hinv⟩ := hwf
                      constructor
                      · intro p hp
                        simp only at hp
                        rcases mem_putK hp with h1 | h1
                        · subst h1
                          refine ⟨by simp [setAmount, hainit], ?_⟩
                          simp only [setAmount, hamint]
                          rw [lookupK_putK_self]
                          rfl
                        · have h2 := hacc p h1
                          exact ⟨h2.1, lookupK_putK_isSome _ _ _ _ h2.2⟩
                      · intro mk1 m1 hl hinit
                        simp only at hl ⊢
                        have hsum := sumAmounts_putK (setAmount a (a.amount + amt)) ha mk1
                        by_cases hk : mk1 = mk
                        · subst hk
                          rw [lookupK_putK_self] at hl
                          injection hl with hl
                          subst hl
                          have hca : contrib mk1 a = a.amount := by
                            simp [contrib, hainit, hamint]
                          have hca1 : contrib mk1 (setAmount a (a.amount + amt)) =
                              a.amount + amt := by
                            simp [contrib, setAmount, hainit, hamint]
                          have hold := hinv mk1 m hm hminit
                          simp only [setSupply]
                          omega
                        · rw [lookupK_putK_ne _ _ hk] at hl
                          have hold := hinv mk1 m1 hl hinit
                          have hca : contrib mk1 a = 0 := by
                            simp [contrib, hamint, Ne.symm hk]
                          have hca1 : contrib mk1 (setAmount a (a.amount + amt)) = 0 := by
                            simp [contrib, setAmount, hamint, Ne.symm hk]
                          omega
                    next => simp at ha1
                  next => simp at hs1
                next => simp at h
            next => simp at h
          next => simp at h
      next => simp at h
    next => simp at h

theorem wf_burnOp {s s1 : Store} {ak mk : Key} {caller : Identity} {amt : Nat}
    (hwf : WF s) (h : burnOp s ak mk caller amt = .ok s1) : WF s1 := by
  unfold burnOp at h
  split at h
  next => simp at h
  next a ha =>
    split at h
    next hainit =>
      split at h
      next => simp at h
      next hfroz =>
        split at h
        next hown =>
          split at h
          next => simp at h
          next aAmt1 hsub =>
            split at h
            next hamint =>
              split at h
              next => simp at h
              next m hm =>
                split at h
                next hminit =>
                  split at h
                  next => simp at h
                  next supply1 hssub =>
                    simp only [Except.ok.injEq] at h
                    subst h
                    unfold checked_sub at hsub hssub
                    split at hsub
                    next hle =>
                      injection hsub with hsub
                      split at hssub
                      next hsle =>
                        injection hssub with hssub
                        subst hsub
                        subst hssub
                        obtain ⟨hacc, hinv⟩ := hwf
                        constructor
                        · intro p hp
                          simp only at hp
                          rcases mem_putK hp with h1 | h1
                          · subst h1
                            refine ⟨by simp [setAmount, hainit], ?_⟩
                            simp only [setAmount, hamint]
                            rw [lookupK_putK_self]
                            rfl
                          · have h2 := hacc p h1
                            exact ⟨h2.1, lookupK_putK_isSome _ _ _ _ h2.2⟩
                        · intro mk1 m1 hl hinit
                          simp only at hl ⊢
                          have hsum := sumAmounts_putK (setAmount a (a.amount - amt)) ha mk1
                          by_cases hk : mk1 = mk
                          · subst hk
                            rw [lookupK_putK_self] at hl
                            injection hl with hl
                            subst hl
                            have hca : contrib mk1 a = a.amount := by
                              simp [contrib, hainit, hamint]
                            have hca1 : contrib mk1 (setAmount a (a.amount - amt)) =
                                a.amount - amt := by
                              simp [contrib, setAmount, hainit, hamint]
                            have hold := hinv mk1 m hm hminit
                            simp only [setSupply]
                            omega
                          · rw [lookupK_putK_ne _ _ hk] at hl
                            have hold := hinv mk1 m1 hl hinit
                            have hca : contrib mk1 a = 0 := by
                              simp [contrib, hamint, Ne.symm hk]
                            have hca1 : contrib mk1 (setAmount a (a.amount - amt)) = 0 := by
                              simp [contrib, setAmount, hamint, Ne.symm hk]
                            omega
                      next => simp at hssub
                    next => simp at hsub
                next => simp at h
            next => simp at h
        next => simp at h
    next => simp at h

theorem lookupK_mem {α : Type} {l : List (Key × α)} {k : Key} {v : α}
    (h : lookupK l k = some v) : (k, v) ∈ l := by
  induction l with
  | nil => simp [lookupK] at h
  | cons q t ih =>
      obtain ⟨k1, v1⟩ := q
      by_cases hk : k1 = k
      · subst hk
        simp [lookupK] at h
        simp [h]
      · simp [lookupK, hk] at h
        simp [ih h]

theorem wf_transferOp {s s1 : Store} {srcK dstK : Key} {caller : Identity}
    {amt : Nat} (hwf : WF s) (h : transferOp s srcK dstK caller amt = .ok s1) :
    WF s1 := by
  unfold transferOp at h
  split at h
  next => simp at h
  next src hsrc =>
    split at h
    next hsinit =>
      split at h
      next => simp at h
      next hsfroz =>
        split at h
        next hown =>
          split at h
          next => simp at h
          next dst hdst =>
            split at h
            next hdinit =>
              split at h
              next hdmint =>
                split at h
                next => simp at h
                next hdfroz =>
                  split at h
                  next => simp at h
                  next srcAmt1 hsub =>
                    split at h
                    next => simp at h
                    next dstRec hl2 =>
                      split at h
                      next => simp at h
                      next dstAmt1 hadd =>
                        simp only [Except.ok.injEq] at h
                        subst h
                        unfold checked_sub at hsub
                        split at hsub
                        next hle =>
                          injection hsub with hsub
                          subst hsub
                          unfold checked_add at hadd
                          split at hadd
                          next hba =>
                            injection hadd with hadd
                            subst hadd
                            obtain ⟨hacc, hinv⟩ := hwf
                            have hsmint : (lookupK s.mints src.mint).isSome = true :=
                              (hacc (srcK, src) (lookupK_mem hsrc)).2
                            have hri : dstRec.is_initialized = true := by
                              by_cases hkd : dstK = srcK
                              · rw [hkd, lookupK_putK_self] at hl2
                                injection hl2 with hl2
                                subst hl2
                                simpa [setAmount] using hsinit
                              · rw [lookupK_putK_ne _ _ hkd, hdst] at hl2
                                injection hl2 with hl2
                                subst hl2
                                exact hdinit
                            have hrm : dstRec.mint = src.mint := by
                              by_cases hkd : dstK = srcK
                              · rw [hkd, lookupK_putK_self] at hl2
                                injection hl2 with hl2
                                subst hl2
                                simp [setAmount]
                              · rw [lookupK_putK_ne _ _ hkd, hdst] at hl2
                                injection hl2 with hl2
                                subst hl2
                                exact hdmint
                            constructor
                            · intro p hp
                              simp only at hp
                              rcases mem_putK hp with h1 | h1
                              · subst h1
                                refine ⟨by simp [setAmount, hri], ?_⟩
                                simp only [setAmount, hrm]
                                exact hsmint
                              · rcases mem_putK h1 with h2 | h2
                                · subst h2
                                  exact ⟨by simp [setAmount, hsinit],
                                    by simp [setAmount]; exact hsmint⟩
                                · exact hacc p h2
                            · intro mk1 m1 hl hinit
                              simp only at hl ⊢
                              have hold := hinv mk1 m1 hl hinit
                              have hsum2 := sumAmounts_putK
                                (setAmount dstRec (dstRec.amount + amt)) hl2 mk1
                              have hsum1 := sumAmounts_putK
                                (setAmount src (src.amount - amt)) hsrc mk1
                              by_cases hk : mk1 = src.mint
                              · subst hk
                                have hc1 : contrib src.mint src = src.amount := by
                                  simp [contrib, hsinit]
                                have hc2 : contrib src.mint
                                    (setAmount src (src.amount - amt)) =
                                    src.amount - amt := by
                                  simp [contrib, setAmount, hsinit]
                                have hc3 : contrib src.mint dstRec = dstRec.amount := by
                                  simp [contrib, hri, hrm]
                                have hc4 : contrib src.mint
                                    (setAmount dstRec (dstRec.amount + amt)) =
                                    dstRec.amount + amt := by
                                  simp [contrib, setAmount, hri, hrm]
                                omega
                              · have hc1 : contrib mk1 src = 0 := by
                                  simp [contrib, Ne.symm hk]
                                have hc2 : contrib mk1
                                    (setAmount src (src.amount - amt)) = 0 := by
                                  simp [contrib, setAmount, Ne.symm hk]
                                have hc3 : contrib mk1 dstRec = 0 := by
                                  simp [contrib, hrm, Ne.symm hk]
                                have hc4 : contrib mk1
                                    (setAmount dstRec (dstRec.amount + amt)) = 0 := by
                                  simp [contrib, setAmount, hrm, Ne.symm hk]
                                omega
                          next => simp at hadd
                        next => simp at hsub
              next => simp at h
            next => simp at h
        next => simp at h
    next => simp at h

theorem wf_applyOp {s s1 : Store} {op : Op} (hwf : WF s)
    (h : applyOp s op = .ok s1) : WF s1 := by
  cases op with
  | initializeMint mk auth freeze dec => exact wf_initializeMintOp hwf h
  | initializeAccount ak mk owner => exact wf_initializeAccountOp hwf h
  | mintTo mk ak caller amt => exact wf_mintToOp hwf h
  | transfer srcK dstK caller amt => exact wf_transferOp hwf h
  | burn ak mk caller amt => exact wf_burnOp hwf h

theorem wf_runOps {ops : List Op} {s s1 : Store} (hwf : WF s)
    (h : runOps s ops = .ok s1) : WF s1 := by
  induction ops generalizing s with
  | nil =>
      unfold runOps at h
      injection h with h
      subst h
      exact hwf
  | cons op t ih =>
      unfold runOps at h
      split at h
      next s2 h2 => exact ih (wf_applyOp hwf h2) h
      next => simp at h

theorem wf_emptyStore : WF emptyStore := by
  constructor
  · intro p hp
    simp [emptyStore] at hp
  · intro mk m hl
    simp [emptyStore, lookupK] at hl

/-- C1: for every valid sequence of the five operations starting from the
empty store, after each operation the supply of every initialized Mint
equals the sum of `amount` over all initialized TokenAccounts whose mint
field references that Mint (any prefix of a valid sequence is itself a
valid sequence, so the invariant holds at every intermediate state). -/
theorem supply_invariant_all_runs (ops : List Op) (s : Store)
    (h : runOps emptyStore ops = .ok s) : SupplyInv s :=
  (wf_runOps wf_emptyStore h).2

theorem supply_invariant_all_runs_witness :
    SupplyInv ⟨[(0, ⟨some 10, 900000000, 9, none, true⟩)],
      [(1, ⟨0, 11, 500000000, true, false⟩),
       (2, ⟨0, 12, 400000000, true, false⟩)]⟩ :=
  supply_invariant_all_runs lifecycleOps
    ⟨[(0, ⟨some 10, 900000000, 9, none, true⟩)],
     [(1, ⟨0, 11, 500000000, true, false⟩),
      (2, ⟨0, 12, 400000000, true, false⟩)]⟩ rfl

/-- C4: for every initialized, unfrozen source account whose owner signs,
with the operation's other preconditions satisfied, Transfer and Burn of
an amount strictly greater than the source's balance fail with
`InsufficientFunds`, and the store (hence every balance and supply) is
unchanged. -/
theorem insufficient_funds_rejected :
    (∀ (s : Store) (srcK dstK : Key) (src dst : TokenAccount) (amt : Nat),
      lookupK s.accounts srcK = some src → src.is_initialized = true →
      src.is_frozen = false →
      lookupK s.accounts dstK = some dst → dst.is_initialized = true →
      dst.is_frozen = false → dst.mint = src.mint →
      src.amount < amt →
      applyOp s (.transfer srcK dstK src.owner amt) = .error .InsufficientFunds ∧
      execOp s (.transfer srcK dstK src.owner amt) = s) ∧
    (∀ (s : Store) (ak mk : Key) (a : TokenAccount) (amt : Nat),
      lookupK s.accounts ak = some a → a.is_initialized = true →
      a.is_frozen = false → a.amount < amt →
      applyOp s (.burn ak mk a.owner amt) = .error .InsufficientFunds ∧
      execOp s (.burn ak mk a.owner amt) = s) := by
  constructor
  · intro s srcK dstK src dst amt hsrc hsinit hsfroz hdst hdinit hdfroz hdmint hlt
    have h1 : checked_sub src.amount amt = none := by
      unfold checked_sub
      rw [if_neg (by omega)]
    have happ : applyOp s (.transfer srcK dstK src.owner amt) =
        .error .InsufficientFunds := by
      simp [applyOp, transferOp, hsrc, hsinit, hsfroz, hdst, hdinit, hdfroz,
        hdmint, h1]
    refine ⟨happ, ?_⟩
    unfold execOp
    rw [happ]
  · intro s ak mk a amt ha hainit hafroz hlt
    have h1 : checked_sub a.amount amt = none := by
      unfold checked_sub
      rw [if_neg (by omega)]
    have happ : applyOp s (.burn ak mk a.owner amt) =
        .error .InsufficientFunds := by
      simp [applyOp, burnOp, ha, hainit, hafroz, h1]
    refine ⟨happ, ?_⟩
    unfold execOp
    rw [happ]

theorem insufficient_funds_rejected_witness :
    (applyOp demoStore (.transfer 1 2 11 1000) = .error .InsufficientFunds ∧
      execOp demoStore (.transfer 1 2 11 1000) = demoStore) ∧
    (applyOp demoStore (.burn 2 0 12 1000) = .error .InsufficientFunds ∧
      execOp demoStore (.burn 2 0 12 1000) = demoStore) :=
  ⟨insufficient_funds_rejected.1 demoStore 1 2
      ⟨0, 11, 600, true, false⟩ ⟨0, 12, 400, true, false⟩ 1000
      rfl rfl rfl rfl rfl rfl rfl (by decide),
   insufficient_funds_rejected.2 demoStore 2 0
      ⟨0, 12, 400, true, false⟩ 1000 rfl rfl rfl (by decide)⟩

theorem bounded_applyOp {s s1 : Store} {op : Op} (hb : BoundedStore s)
    (h : applyOp s op = .ok s1) : BoundedStore s1 := by
  obtain ⟨hba, hbm⟩ := hb
  cases op with
  | initializeMint mk auth freeze dec =>
      replace h : initializeMintOp s mk auth freeze dec = .ok s1 := h
      unfold initializeMintOp at h
      split at h
      next => simp at h
      next hm =>
        simp only [Except.ok.injEq] at h
        subst h
        refine ⟨hba, ?_⟩
        intro q hq
        simp only at hq
        rcases mem_putK hq with h1 | h1
        · subst h1
          exact Nat.zero_le _
        · exact hbm q h1
  | initializeAccount ak mk owner =>
      replace h : initializeAccountOp s ak mk owner = .ok s1 := h
      unfold initializeAccountOp at h
      split at h
      next => simp at h
      next hak =>
        split at h
        next => simp at h
        next m hm =>
          split at h
          next hminit =>
            simp only [Except.ok.injEq] at h
            subst h
            refine ⟨?_, hbm⟩
            intro p hp
            simp only at hp
            rcases mem_putK hp with h1 | h1
            · subst h1
              exact Nat.zero_le _
            · exact hba p h1
          next => simp at h
  | mintTo mk ak caller amt =>
      replace h : mintToOp s mk ak caller amt = .ok s1 := h
      unfold mintToOp at h
      split at h
      next => simp at h
      next m hm =>
        split at h
        next hminit =>
          split at h
          next hauth =>
            split at h
            next => simp at h
            next a ha =>
              split at h
              next hainit =>
                split at h
                next hamint =>
                  split at h
                  next => simp at h
                  next hafroz =>
                    split at h
                    next supply1 amount1 hs1 ha1 =>
                      simp only [Except.ok.injEq] at h
                      subst h
                      unfold checked_add at hs1 ha1
                      split at hs1
                      next hbs =>
                        injection hs1 with hs1
                        split at ha1
                        next hba2 =>
                          injection ha1 with ha1
                          subst hs1
                          subst ha1
                          constructor
                          · intro p hp
                            simp only at hp
                            rcases mem_putK hp with h1 | h1
                            · subst h1
                              simpa [setAmount] using hba2
                            · exact hba p h1
                          · intro q hq
                            simp only at hq
                            rcases mem_putK hq with h1 | h1
                            · subst h1
                              simpa [setSupply] using hbs
                            · exact hbm q h1
                        next => simp at ha1
                      next => simp at hs1
                    next => simp at h
                next => simp at h
              next => simp at h
          next => simp at h
        next => simp at h
  | transfer srcK dstK caller amt =>
      replace h : transferOp s srcK dstK caller amt = .ok s1 := h
      unfold transferOp at h
      split at h
      next => simp at h
      next src hsrc =>
        split at h
        next hsinit =>
          split at h
          next => simp at h
          next hsfroz =>
            split at h
            next hown =>
              split at h
              next => simp at h
              next dst hdst =>
                split at h
                next hdinit =>
                  split at h
                  next hdmint =>
                    split at h
                    next => simp at h
                    next hdfroz =>
                      split at h
                      next => simp at h
                      next srcAmt1 hsub =>
                        split at h
                        next => simp at h
                        next dstRec hl2 =>
                          split at h
                          next => simp at h
                          next dstAmt1 hadd =>
                            simp only [Except.ok.injEq] at h
                            subst h
                            unfold checked_sub at hsub
                            split at hsub
                            next hle =>
                              injection hsub with hsub
                              subst hsub
                              unfold checked_add at hadd
                              split at hadd
                              next hba2 =>
                                injection hadd with hadd
                                subst hadd
                                have hsb := hba (srcK, src) (lookupK_mem hsrc)
                                simp at hsb
                                refine ⟨?_, hbm⟩
                                intro p hp
                                simp only at hp
                                rcases mem_putK hp with h1 | h1
                                · subst h1
                                  simpa [setAmount] using hba2
                                · rcases mem_putK h1 with h2 | h2
                                  · subst h2
                                    simp [setAmount]
                                    omega
                                  · exact hba p h2
                              next => simp at hadd
                            next => simp at hsub
                  next => simp at h
                next => simp at h
            next => simp at h
        next => simp at h
  | burn ak mk caller amt =>
      replace h : burnOp s ak mk caller amt = .ok s1 := h
      unfold burnOp at h
      split at h
      next => simp at h
      next a ha =>
        split at h
        next hainit =>
          split at h
          next => simp at h
          next hafroz =>
            split at h
            next hown =>
              split at h
              next => simp at h
              next aAmt1 hsub =>
                split at h
                next hamint =>
                  split at h
                  next => simp at h
                  next m hm =>
                    split at h
                    next hminit =>
                      split at h
                      next => simp at h
                      next supply1 hssub =>
                        simp only [Except.ok.injEq] at h
                        subst h
                        unfold checked_sub at hsub hssub
                        split at hsub
                        next hle =>
                          injection hsub with hsub
                          split at hssub
                          next hsle =>
                            injection hssub with hssub
                            subst hsub
                            subst hssub
                            have hab := hba (ak, a) (lookupK_mem ha)
                            have hmb := hbm (mk, m) (lookupK_mem hm)
                            simp at hab hmb
                            constructor
                            · intro p hp
                              simp only at hp
                              rcases mem_putK hp with h1 | h1
                              · subst h1
                                simp [setAmount]
                                omega
                              · exact hba p h1
                            · intro q hq
                              simp only at hq
                              rcases mem_putK hq with h1 | h1
                              · subst h1
                                simp [setSupply]
                                omega
                              · exact hbm q h1
                          next => simp at hssub
                        next => simp at hsub
                    next => simp at h
                next => simp at h
            next => simp at h
        next => simp at h

/-- C5: balance and supply changes use checked 64-bit arithmetic: with the
other preconditions satisfied, a MintTo whose supply or balance addition
would exceed U64MAX fails with `ArithmeticError`; a Transfer whose
destination addition would exceed U64MAX fails with `ArithmeticError`; a
Burn whose supply subtraction would underflow fails with
`ArithmeticError`; and every successful operation keeps all balances and
supplies within U64MAX (in this model a successful operation computes the
exact natural-number sum or difference, so no wrapped or saturated value
can ever be produced). -/
theorem checked_arithmetic_never_wraps :
    (∀ (s : Store) (mk ak : Key) (caller : Identity) (amt : Nat)
        (m : Mint) (a : TokenAccount),
      lookupK s.mints mk = some m → m.is_initialized = true →
      m.mint_authority = some caller →
      lookupK s.accounts ak = some a → a.is_initialized = true →
      a.mint = mk → a.is_frozen = false →
      (U64MAX < m.supply + amt ∨ U64MAX < a.amount + amt) →
      applyOp s (.mintTo mk ak caller amt) = .error .ArithmeticError) ∧
    (∀ (s : Store) (srcK dstK : Key) (amt : Nat) (src dst : TokenAccount),
      srcK ≠ dstK →
      lookupK s.accounts srcK = some src → src.is_initialized = true →
      src.is_frozen = false →
      lookupK s.accounts dstK = some dst → dst.is_initialized = true →
      dst.is_frozen = false → dst.mint = src.mint → amt ≤ src.amount →
      U64MAX < dst.amount + amt →
      applyOp s (.transfer srcK dstK src.owner amt) = .error .ArithmeticError) ∧
    (∀ (s : Store) (ak mk : Key) (amt : Nat) (a : TokenAccount) (m : Mint),
      lookupK s.accounts ak = some a → a.is_initialized = true →
      a.is_frozen = false → amt ≤ a.amount → a.mint = mk →
      lookupK s.mints mk = some m → m.is_initialized = true → m.supply < amt →
      applyOp s (.burn ak mk a.owner amt) = .error .ArithmeticError) ∧
    (∀ (s s1 : Store) (op : Op), applyOp s op = .ok s1 →
      BoundedStore s → BoundedStore s1) := by
  refine ⟨?_, ?_, ?_, fun s s1 op h hb => bounded_applyOp hb h⟩
  · intro s mk ak caller amt m a hm hminit hauth ha hainit hamint hafroz hov
    rcases hov with hov | hov
    · have h1 : checked_add m.supply amt = none := by
        unfold checked_add
        rw [if_neg (by omega)]
      simp [applyOp, mintToOp, hm, hminit, hauth, ha, hainit, hamint, hafroz, h1]
    · have h1 : checked_add a.amount amt = none := by
        unfold checked_add
        rw [if_neg (by omega)]
      cases h2 : checked_add m.supply amt with
      | none =>
          simp [applyOp, mintToOp, hm, hminit, hauth, ha, hainit, hamint,
            hafroz, h1, h2]
      | some v =>
          simp [applyOp, mintToOp, hm, hminit, hauth, ha, hainit, hamint,
            hafroz, h1, h2]
  · intro s srcK dstK amt src dst hne hsrc hsinit hsfroz hdst hdinit hdfroz
      hdmint hle hov
    have h1 : checked_sub src.amount amt = some (src.amount - amt) := by
      unfold checked_sub
      rw [if_pos hle]
    have h2 : lookupK (putK s.accounts srcK (setAmount src (src.amount - amt)))
        dstK = some dst := by
      rw [lookupK_putK_ne _ _ (Ne.symm hne)]
      exact hdst
    have h3 : checked_add dst.amount amt = none := by
      unfold checked_add
      rw [if_neg (by omega)]
    simp [applyOp, transferOp, hsrc, hsinit, hsfroz, hdst, hdinit, hdfroz,
      hdmint, h1, h2, h3]
  · intro s ak mk amt a m ha hainit hafroz hle hamint hm hminit hlt
    have h1 : checked_sub a.amount amt = some (a.amount - amt) := by
      unfold checked_sub
      rw [if_pos hle]
    have h2 : checked_sub m.supply amt = none := by
      unfold checked_sub
      rw [if_neg (by omega)]
    simp [applyOp, burnOp, ha, hainit, hafroz, hamint, hm, hminit, h1, h2]

theorem checked_arithmetic_never_wraps_witness :
    applyOp fullStore (.mintTo 0 1 10 1) = .error .ArithmeticError ∧
    applyOp fullStore (.transfer 2 1 12 1) = .error .ArithmeticError ∧
    applyOp lowSupplyStore (.burn 1 0 11 5) = .error .ArithmeticError ∧
    BoundedStore ⟨[(0, ⟨some 10, 1050, 9, none, true⟩)],
      [(1, ⟨0, 11, 650, true, false⟩), (2, ⟨0, 12, 400, true, false⟩)]⟩ :=
  ⟨checked_arithmetic_never_wraps.1 fullStore 0 1 10 1
      ⟨some 10, U64MAX, 9, none, true⟩ ⟨0, 11, U64MAX, true, false⟩
      rfl rfl rfl rfl rfl rfl rfl (Or.inl (Nat.lt_succ_self _)),
   checked_arithmetic_never_wraps.2.1 fullStore 2 1 1
      ⟨0, 12, 5, true, false⟩ ⟨0, 11, U64MAX, true, false⟩
      (by decide) rfl rfl rfl rfl rfl rfl rfl (by decide)
      (Nat.lt_succ_self _),
   checked_arithmetic_never_wraps.2.2.1 lowSupplyStore 1 0 5
      ⟨0, 11, 10, true, false⟩ ⟨some 10, 3, 9, none, true⟩
      rfl rfl rfl (by decide) rfl rfl rfl (by decide),
   checked_arithmetic_never_wraps.2.2.2 demoStore
      ⟨[(0, ⟨some 10, 1050, 9, none, true⟩)],
       [(1, ⟨0, 11, 650, true, false⟩), (2, ⟨0, 12, 400, true, false⟩)]⟩
      (.mintTo 0 1 10 50) rfl
      (by refine ⟨?_, ?_⟩ <;> intro p hp <;>
        simp only [demoStore, List.mem_cons, List.mem_singleton,
          List.not_mem_nil, or_false] at hp <;>
        rcases hp with rfl | rfl <;> simp [U64MAX])⟩

/-- C6: a successful Transfer between two distinct accounts of the same
mint preserves the sum `source.amount + dest.amount` exactly, and a
successful Transfer from an account to itself leaves that account's
balance unchanged (the checked subtraction and the checked addition are
both performed on the same record, not skipped). -/
theorem transfer_conserves_balances
    (s : Store) (srcK dstK : Key) (caller : Identity) (amt : Nat) (s1 : Store)
    (h : applyOp s (.transfer srcK dstK caller amt) = .ok s1) :
    (srcK ≠ dstK → balOf s1 srcK + balOf s1 dstK = balOf s srcK + balOf s dstK) ∧
    (srcK = dstK → balOf s1 srcK = balOf s srcK) := by
  replace h : transferOp s srcK dstK caller amt = .ok s1 := h
  unfold transferOp at h
  split at h
  next => simp at h
  next src hsrc =>
    split at h
    next hsinit =>
      split at h
      next => simp at h
      next hsfroz =>
        split at h
        next hown =>
          split at h
          next => simp at h
          next dst hdst =>
            split at h
            next hdinit =>
              split at h
              next hdmint =>
                split at h
                next => simp at h
                next hdfroz =>
                  split at h
                  next => simp at h
                  next srcAmt1 hsub =>
                    split at h
                    next => simp at h
                    next dstRec hl2 =>
                      split at h
                      next => simp at h
                      next dstAmt1 hadd =>
                        simp only [Except.ok.injEq] at h
                        subst h
                        unfold checked_sub at hsub
                        split at hsub
                        next hle =>
                          injection hsub with hsub
                          subst hsub
                          unfold checked_add at hadd
                          split at hadd
                          next hba2 =>
                            injection hadd with hadd
                            subst hadd
                            constructor
                            · intro hne
                              have hdrec : dstRec = dst := by
                                rw [lookupK_putK_ne _ _ (Ne.symm hne), hdst] at hl2
                                injection hl2 with h2
                                exact h2.symm
                              subst hdrec
                              have e1 : lookupK (putK (putK s.accounts srcK
                                  (setAmount src (src.amount - amt))) dstK
                                  (setAmount dstRec (dstRec.amount + amt))) srcK =
                                  some (setAmount src (src.amount - amt)) := by
                                rw [lookupK_putK_ne _ _ hne, lookupK_putK_self]
                              have e2 : lookupK (putK (putK s.accounts srcK
                                  (setAmount src (src.amount - amt))) dstK
                                  (setAmount dstRec (dstRec.amount + amt))) dstK =
                                  some (setAmount dstRec (dstRec.amount + amt)) :=
                                lookupK_putK_self _ _ _
                              simp only [balOf, e1, e2, hsrc, hdst,
                                Option.map_some', Option.getD_some]
                              simp only [setAmount]
                              omega
                            · intro heq
                              subst heq
                              rw [lookupK_putK_self] at hl2
                              injection hl2 with h2
                              subst h2
                              simp only [balOf, lookupK_putK_self, hsrc,
                                Option.map_some', Option.getD_some]
                              simp only [setAmount]
                              omega
                          next => simp at hadd
                        next => simp at hsub
              next => simp at h
            next => simp at h
        next => simp at h
    next => simp at h

theorem transfer_conserves_balances_witness :
    (1 ≠ 2 →
      balOf ⟨[(0, ⟨some 10, 1000, 9, none, true⟩)],
        [(1, ⟨0, 11, 450, true, false⟩), (2, ⟨0, 12, 550, true, false⟩)]⟩ 1 +
      balOf ⟨[(0, ⟨some 10, 1000, 9, none, true⟩)],
        [(1, ⟨0, 11, 450, true, false⟩), (2, ⟨0, 12, 550, true, false⟩)]⟩ 2 =
      balOf demoStore 1 + balOf demoStore 2) ∧
    (1 = 2 →
      balOf ⟨[(0, ⟨some 10, 1000, 9, none, true⟩)],
        [(1, ⟨0, 11, 450, true, false⟩), (2, ⟨0, 12, 550, true, false⟩)]⟩ 1 =
      balOf demoStore 1) :=
  transfer_conserves_balances demoStore 1 2 11 150
    ⟨[(0, ⟨some 10, 1000, 9, none, true⟩)],
     [(1, ⟨0, 11, 450, true, false⟩), (2, ⟨0, 12, 550, true, false⟩)]⟩ rfl

/-- C7: when a MintTo of some amount to an account succeeds and a Burn of
the same amount from the same account then also succeeds, the account
record and the mint record both return exactly to their state before the
MintTo. -/
theorem mintto_burn_roundtrip
    (s : Store) (mk ak : Key) (auth owner : Identity) (amt : Nat) (s1 s2 : Store)
    (h1 : applyOp s (.mintTo mk ak auth amt) = .ok s1)
    (h2 : applyOp s1 (.burn ak mk owner amt) = .ok s2) :
    lookupK s2.accounts ak = lookupK s.accounts ak ∧
    lookupK s2.mints mk = lookupK s.mints mk := by
  replace h1 : mintToOp s mk ak auth amt = .ok s1 := h1
  unfold mintToOp at h1
  split at h1
  next => simp at h1
  next m hm =>
    split at h1
    next hminit =>
      split at h1
      next hauth =>
        split at h1
        next => simp at h1
        next a ha =>
          split at h1
          next hainit =>
            split at h1
            next hamint =>
              split at h1
              next => simp at h1
              next hafroz =>
                split at h1
                next supply1 amount1 hs1 ha1 =>
                  simp only [Except.ok.injEq] at h1
                  subst h1
                  unfold checked_add at hs1 ha1
                  split at hs1
                  next hbs =>
                    injection hs1 with hs1
                    split at ha1
                    next hba2 =>
                      injection ha1 with ha1
                      subst hs1
                      subst ha1
                      replace h2 : burnOp
                          ⟨putK s.mints mk (setSupply m (m.supply + amt)),
                           putK s.accounts ak (setAmount a (a.amount + amt))⟩
                          ak mk owner amt = .ok s2 := h2
                      unfold burnOp at h2
                      split at h2
                      next => simp at h2
                      next a2 ha2 =>
                        simp only at ha2
                        rw [lookupK_putK_self] at ha2
                        injection ha2 with ha2
                        subst ha2
                        split at h2
                        next =>
                          split at h2
                          next => simp at h2
                          next =>
                            split at h2
                            next =>
                              split at h2
                              next => simp at h2
                              next aAmt1 hsub =>
                                split at h2
                                next =>
                                  split at h2
                                  next => simp at h2
                                  next m2 hm2 =>
                                    simp only at hm2
                                    rw [lookupK_putK_self] at hm2
                                    injection hm2 with hm2
                                    subst hm2
                                    split at h2
                                    next =>
                                      split at h2
                                      next => simp at h2
                                      next supply2 hssub =>
                                        simp only [Except.ok.injEq] at h2
                                        subst h2
                                        unfold checked_sub at hsub hssub
                                        split at hsub
                                        next hle1 =>
                                          injection hsub with hsub
                                          subst hsub
                                          split at hssub
                                          next hle2 =>
                                            injection hssub with hssub
                                            subst hssub
                                            constructor
                                            · simp only
                                              rw [lookupK_putK_self, ha]
                                              simp [setAmount, Nat.add_sub_cancel]
                                            · simp only
                                              rw [lookupK_putK_self, hm]
                                              simp [setSupply, setAmount,
                                                Nat.add_sub_cancel]
                                          next => simp at hssub
                                        next => simp at hsub
                                    next => simp at h2
                                next => simp at h2
                            next => simp at h2
                        next => simp at h2
                    next => simp at ha1
                  next => simp at hs1
                next => simp at h1
            next => simp at h1
          next => simp at h1
      next => simp at h1
    next => simp at h1

theorem mintto_burn_roundtrip_witness :
    lookupK (demoStore.accounts) 1 = lookupK (demoStore.accounts) 1 ∧
    lookupK (demoStore.mints) 0 = lookupK (demoStore.mints) 0 :=
  mintto_burn_roundtrip demoStore 0 1 10 11 50
    ⟨[(0, ⟨some 10, 1050, 9, none, true⟩)],
     [(1, ⟨0, 11, 650, true, false⟩), (2, ⟨0, 12, 400, true, false⟩)]⟩
    demoStore rfl rfl

/-- C8: with the operation's other preconditions satisfied (records
initialized and not frozen, authority and mint checks passing, stored
values within the unsigned 64-bit range), MintTo, Transfer and Burn with
amount 0 succeed and return the store unchanged, so every balance and
every mint supply is left exactly as it was. -/
theorem zero_amount_is_noop :
    (∀ (s : Store) (mk ak : Key) (caller : Identity) (m : Mint)
        (a : TokenAccount),
      lookupK s.mints mk = some m → m.is_initialized = true →
      m.mint_authority = some caller →
      lookupK s.accounts ak = some a → a.is_initialized = true →
      a.mint = mk → a.is_frozen = false →
      m.supply ≤ U64MAX → a.amount ≤ U64MAX →
      applyOp s (.mintTo mk ak caller 0) = .ok s) ∧
    (∀ (s : Store) (srcK dstK : Key) (src dst : TokenAccount),
      lookupK s.accounts srcK = some src → src.is_initialized = true →
      src.is_frozen = false →
      lookupK s.accounts dstK = some dst → dst.is_initialized = true →
      dst.is_frozen = false → dst.mint = src.mint → dst.amount ≤ U64MAX →
      applyOp s (.transfer srcK dstK src.owner 0) = .ok s) ∧
    (∀ (s : Store) (ak mk : Key) (a : TokenAccount) (m : Mint),
      lookupK s.accounts ak = some a → a.is_initialized = true →
      a.is_frozen = false → a.mint = mk →
      lookupK s.mints mk = some m → m.is_initialized = true →
      applyOp s (.burn ak mk a.owner 0) = .ok s) := by
  refine ⟨?_, ?_, ?_⟩
  · intro s mk ak caller m a hm hminit hauth ha hainit hamint hafroz hbs hba2
    have h1 : checked_add m.supply 0 = some m.supply := by
      unfold checked_add
      rw [Nat.add_zero, if_pos hbs]
    have h2 : checked_add a.amount 0 = some a.amount := by
      unfold checked_add
      rw [Nat.add_zero, if_pos hba2]
    have e1 : putK s.mints mk (setSupply m m.supply) = s.mints := by
      rw [show setSupply m m.supply = m from rfl, putK_lookup_self hm]
    have e2 : putK s.accounts ak (setAmount a a.amount) = s.accounts := by
      rw [show setAmount a a.amount = a from rfl, putK_lookup_self ha]
    show mintToOp s mk ak caller 0 = .ok s
    simp [mintToOp, hm, hminit, hauth, ha, hainit, hamint, hafroz, h1, h2,
      e1, e2]
  · intro s srcK dstK src dst hsrc hsinit hsfroz hdst hdinit hdfroz hdmint hbd
    have h1 : checked_sub src.amount 0 = some src.amount := by
      unfold checked_sub
      rw [if_pos (Nat.zero_le _), Nat.sub_zero]
    have h2 : checked_add dst.amount 0 = some dst.amount := by
      unfold checked_add
      rw [Nat.add_zero, if_pos hbd]
    have e1 : putK s.accounts srcK (setAmount src src.amount) = s.accounts := by
      rw [show setAmount src src.amount = src from rfl, putK_lookup_self hsrc]
    have e2 : putK s.accounts dstK (setAmount dst dst.amount) = s.accounts := by
      rw [show setAmount dst dst.amount = dst from rfl, putK_lookup_self hdst]
    show transferOp s srcK dstK src.owner 0 = .ok s
    simp [transferOp, hsrc, hsinit, hsfroz, hdst, hdinit, hdfroz, hdmint,
      h1, h2, e1, e2]
  · intro s ak mk a m ha hainit hafroz hamint hm hminit
    have h1 : checked_sub a.amount 0 = some a.amount := by
      unfold checked_sub
      rw [if_pos (Nat.zero_le _), Nat.sub_zero]
    have h2 : checked_sub m.supply 0 = some m.supply := by
      unfold checked_sub
      rw [if_pos (Nat.zero_le _), Nat.sub_zero]
    have e1 : putK s.accounts ak (setAmount a a.amount) = s.accounts := by
      rw [show setAmount a a.amount = a from rfl, putK_lookup_self ha]
    have e2 : putK s.mints mk (setSupply m m.supply) = s.mints := by
      rw [show setSupply m m.supply = m from rfl, putK_lookup_self hm]
    show burnOp s ak mk a.owner 0 = .ok s
    simp [burnOp, ha, hainit, hafroz, hamint, hm, hminit, h1, h2, e1, e2]

theorem zero_amount_is_noop_witness :
    applyOp demoStore (.mintTo 0 1 10 0) = .ok demoStore ∧
    applyOp demoStore (.transfer 1 2 11 0) = .ok demoStore ∧
    applyOp demoStore (.burn 1 0 11 0) = .ok demoStore :=
  ⟨zero_amount_is_noop.1 demoStore 0 1 10
      ⟨some 10, 1000, 9, none, true⟩ ⟨0, 11, 600, true, false⟩
      rfl rfl rfl rfl rfl rfl rfl (by decide) (by decide),
   zero_amount_is_noop.2.1 demoStore 1 2
      ⟨0, 11, 600, true, false⟩ ⟨0, 12, 400, true, false⟩
      rfl rfl rfl rfl rfl rfl rfl (by decide),
   zero_amount_is_noop.2.2 demoStore 1 0
      ⟨0, 11, 600, true, false⟩ ⟨some 10, 1000, 9, none, true⟩
      rfl rfl rfl rfl rfl rfl⟩

end TokenEngine

namespace TokenScript

/-- C9: each of the five submission wrappers of src/src/main.rs returns
`Ok` exactly when the first processed transaction's status equals
`Status::Processed`; any other status yields an `Err` with the wrapper's
fixed message ("Failed to create token mint" / "Failed to create token
account" / "Failed to mint tokens" / "Failed to transfer tokens" /
"Failed to burn tokens"), and the wrapper's decision depends on nothing
else of the submission outcome (it is a function of that status alone). -/
theorem wrappers_ok_iff_processed :
    ∀ st : Status,
      ((create_token_mint st = .ok () ↔ st = .processed) ∧
        (st ≠ .processed →
          create_token_mint st = .error "Failed to create token mint")) ∧
      ((create_token_account st = .ok () ↔ st = .processed) ∧
        (st ≠ .processed →
          create_token_account st = .error "Failed to create token account")) ∧
      ((mint_tokens st = .ok () ↔ st = .processed) ∧
        (st ≠ .processed →
          mint_tokens st = .error "Failed to mint tokens")) ∧
      ((transfer_tokens st = .ok () ↔ st = .processed) ∧
        (st ≠ .processed →
          transfer_tokens st = .error "Failed to transfer tokens")) ∧
      ((burn_tokens st = .ok () ↔ st = .processed) ∧
        (st ≠ .processed →
          burn_tokens st = .error "Failed to burn tokens")) := by
  intro st
  cases st <;>
    simp [create_token_mint, create_token_account, mint_tokens,
      transfer_tokens, burn_tokens, submissionOutcome]

theorem wrappers_ok_iff_processed_witness :
    create_token_mint .processed = .ok () ∧
    mint_tokens .notProcessed = .error "Failed to mint tokens" :=
  ⟨((wrappers_ok_iff_processed .processed).1.1).mpr rfl,
   ((wrappers_ok_iff_processed .notProcessed).2.2.1.2) (by simp)⟩

/-- C10: every mint created through `create_token_mint` is initialized
with decimals fixed to 9, with no freeze authority, and with the mint
authority equal to the freshly generated authority keypair's public key;
these fields are the same for all generated keys and the function's
interface (which takes only the RPC client) lets the caller choose none
of them. -/
theorem create_token_mint_fixed_params :
    ∀ authority_pubkey token_mint_pubkey : Nat,
      (create_token_mint_ix authority_pubkey token_mint_pubkey).decimals = 9 ∧
      (create_token_mint_ix authority_pubkey token_mint_pubkey).freeze_authority
        = none ∧
      (create_token_mint_ix authority_pubkey token_mint_pubkey).mint_authority
        = authority_pubkey ∧
      (create_token_mint_ix authority_pubkey token_mint_pubkey).mint
        = token_mint_pubkey :=
  fun _ _ => ⟨rfl, rfl, rfl, rfl⟩

end TokenScript
